import Mathlib

/-!
Verification development for the DataAngelo backend (src/backend/api.py).

The program parts relevant to the claims are modelled over `List Char`
(one character per Python string character).  Python regular-expression
searches used by the code are literal-delimiter searches, modelled by
explicit first-occurrence scans.
-/

namespace DataAngelo

/-- The characters removed by Python str.strip(): exactly the code points for
which str.isspace() holds — the ASCII whitespace and separator controls
U+0009-U+000D, U+001C-U+001F and U+0020, plus the Unicode whitespace
U+0085, U+00A0, U+1680, U+2000-U+200A, U+2028, U+2029, U+202F, U+205F and
U+3000. -/
def pyWhitespace : List Char :=
  [ Char.ofNat 0x9, Char.ofNat 0xa, Char.ofNat 0xb, Char.ofNat 0xc, Char.ofNat 0xd
  , Char.ofNat 0x1c, Char.ofNat 0x1d, Char.ofNat 0x1e, Char.ofNat 0x1f, Char.ofNat 0x20
  , Char.ofNat 0x85, Char.ofNat 0xa0, Char.ofNat 0x1680
  , Char.ofNat 0x2000, Char.ofNat 0x2001, Char.ofNat 0x2002, Char.ofNat 0x2003
  , Char.ofNat 0x2004, Char.ofNat 0x2005, Char.ofNat 0x2006, Char.ofNat 0x2007
  , Char.ofNat 0x2008, Char.ofNat 0x2009, Char.ofNat 0x200a
  , Char.ofNat 0x2028, Char.ofNat 0x2029, Char.ofNat 0x202f, Char.ofNat 0x205f
  , Char.ofNat 0x3000 ]

/-- Test for membership in the stripped-whitespace set. -/
def pyIsSpace (c : Char) : Bool := pyWhitespace.contains c

/-- Python str.strip(): remove leading and trailing whitespace. -/
def pyStrip (s : List Char) : List Char :=
  ((s.dropWhile pyIsSpace).reverse.dropWhile pyIsSpace).reverse

/-- Index of the first occurrence of `pat` in `s` (leftmost position at which
`pat` is a prefix of the remaining text), scanning left to right. -/
def findOcc (pat : List Char) : List Char → Option Nat
  | [] => if pat.isEmpty then some 0 else none
  | c :: rest =>
    if pat.isPrefixOf (c :: rest) then some 0
    else (findOcc pat rest).map (· + 1)

/-- Fuel-driven worker for `pySplit` (structural recursion on the fuel so the
kernel can evaluate it; for nonempty `sep`, fuel `s.length` is enough because
every step consumes at least one character). -/
def pySplitF (sep : List Char) : Nat → List Char → List (List Char)
  | _, [] => [[]]
  | 0, s => [s]
  | fuel + 1, c :: rest =>
    if sep.isPrefixOf (c :: rest) then
      [] :: pySplitF sep fuel (List.drop sep.length (c :: rest))
    else
      match pySplitF sep fuel rest with
      | [] => [[c]]
      | g :: t => (c :: g) :: t

/-- Python str.split(sep) for a nonempty separator, splitting on
non-overlapping occurrences left to right, keeping empty segments (so the
result is always nonempty). -/
def pySplit (sep : List Char) (s : List Char) : List (List Char) :=
  if sep.isEmpty then [s] else pySplitF sep s.length s

/-- Number of positions at which `pat` occurs in `s` (overlapping occurrences
are all counted; for the patterns used here this coincides with the usual
substring count). -/
def countOcc (pat : List Char) : List Char → Nat
  | [] => if pat.isEmpty then 1 else 0
  | c :: rest => (if pat.isPrefixOf (c :: rest) then 1 else 0) + countOcc pat rest

/-- The fenced-block delimiter (three backticks). -/
def fenceDelim : List Char := ("\x60\x60\x60").toList

/-- The diagram fenced-block opener used by the extraction regex. -/
def mermaidOpen : List Char := ("\x60\x60\x60mermaid\n").toList

/-- The SQL fenced-block opener used by the extraction regex. -/
def sqlOpen : List Char := ("\x60\x60\x60sql\n").toList

/-- The explanation-heading pattern used by the extraction regex
(heading line plus its terminating newline). -/
def explOpen : List Char := ("## Design Explanation\n").toList

/-- The lookahead pattern that terminates the explanation capture. -/
def nlHeadingMark : List Char := ("\n##").toList

/-- The diagram fenced-block language tag (fence plus tag, no newline). -/
def mermaidTag : List Char := ("\x60\x60\x60mermaid").toList

/-- The SQL fenced-block language tag (fence plus tag, no newline). -/
def sqlTag : List Char := ("\x60\x60\x60sql").toList

/-- The fixed explanation heading string. -/
def explHeading : List Char := ("## Design Explanation").toList

/-- Model of `re.search(open + "(.*?)" + fence, s, re.DOTALL)`: the opening
delimiter is a literal, so the leftmost match starts at the first occurrence
of the opening tag, and the non-greedy capture runs to the earliest fence
delimiter after it.  (If the first occurrence of the opening tag has no
closing fence after it, no later occurrence does either, since any fence
after a later occurrence also lies after the first one; hence returning
`none` from the first occurrence agrees with the regex.) -/
def extractFenced (openTag : List Char) (s : List Char) : Option (List Char) :=
  match findOcc openTag s with
  | none => none
  | some i =>
    match findOcc fenceDelim (List.drop (i + openTag.length) s) with
    | none => none
    | some j => some (List.take j (List.drop (i + openTag.length) s))

/-- Model of `re.search("## Design Explanation\n(.*?)(?=\n##|\Z)", s, re.DOTALL)`:
capture from right after the first occurrence of the heading pattern to the
earliest following occurrence of a newline-plus-`##`, or to the end of the
text when there is none (`\Z`). -/
def extractExplanation (s : List Char) : Option (List Char) :=
  match findOcc explOpen s with
  | none => none
  | some i =>
    match findOcc nlHeadingMark (List.drop (i + explOpen.length) s) with
    | none => some (List.drop (i + explOpen.length) s)
    | some j => some (List.take j (List.drop (i + explOpen.length) s))

/-- Dictionary key "erd_mermaid". -/
def erdKey : List Char := ("erd_mermaid").toList

/-- Dictionary key "sql_queries". -/
def sqlKey : List Char := ("sql_queries").toList

/-- Dictionary key "explanation". -/
def explKey : List Char := ("explanation").toList

/-- Value stored for a regex-extracted fenced-block field of the sections
dict: the stripped match group when the search succeeded, the initial empty
string otherwise (api.py lines 107-115). -/
def fieldValue : Option (List Char) → List Char
  | some g => pyStrip g
  | none => []

/-- Value stored for the explanation field: the stripped match group when the
heading search succeeded; otherwise the positional fallback (api.py lines
117-125) splits the completion on the fence delimiter and, when at least five
segments result, takes the stripped trailing segment; otherwise the field
keeps the initial empty string. -/
def explanationValue (response : List Char) : List Char :=
  match extractExplanation response with
  | some g => pyStrip g
  | none =>
    let parts := pySplit fenceDelim response
    if 5 ≤ parts.length then pyStrip (parts.getLastD []) else []

/-- Embedding of `extract_sections` (src/backend/api.py lines 99-127).  The
Python function builds a dict with the three keys and fills each key from its
regex search (with the explanation fallback).  The dict is modelled as an
association list in construction order. -/
def extract_sections (response : List Char) : List (List Char × List Char) :=
  [ (erdKey, fieldValue (extractFenced mermaidOpen response))
  , (sqlKey, fieldValue (extractFenced sqlOpen response))
  , (explKey, explanationValue response) ]

/-- The proposition that `pat` occurs in `s` at position `i`. -/
def occursAt (pat s : List Char) (i : Nat) : Prop :=
  pat.isPrefixOf (List.drop i s) = true

instance (pat s : List Char) (i : Nat) : Decidable (occursAt pat s i) :=
  inferInstanceAs (Decidable (pat.isPrefixOf (List.drop i s) = true))

/-- A fenced block tagged by `openTag` spans positions `i` (opening tag) to
`j` (closing fence delimiter, at or after the end of the opening tag). -/
def fencedBlockAt (openTag s : List Char) (i j : Nat) : Prop :=
  occursAt openTag s i ∧ i + openTag.length ≤ j ∧ occursAt fenceDelim s j

instance (openTag s : List Char) (i j : Nat) : Decidable (fencedBlockAt openTag s i j) :=
  inferInstanceAs (Decidable (_ ∧ _ ∧ _))

/-- The first fenced block tagged by `openTag`: the opening tag at `i` is its
leftmost occurrence and `j` is the earliest fence delimiter at or after the
end of the opening tag. -/
def firstFencedBlock (openTag s : List Char) (i j : Nat) : Prop :=
  fencedBlockAt openTag s i j
  ∧ (∀ k, k < i → ¬ occursAt openTag s k)
  ∧ (∀ k, k < j → i + openTag.length ≤ k → ¬ occursAt fenceDelim s k)

instance (openTag s : List Char) (i j : Nat) : Decidable (firstFencedBlock openTag s i j) :=
  inferInstanceAs (Decidable (_ ∧ _ ∧ _))

/-- `pat` occurs somewhere in `s` (is a substring). -/
def occursIn (pat s : List Char) : Prop := ∃ i, occursAt pat s i

/-- `mismatch t b` holds when `t` and `b` disagree at some position that lies
within both lists; then `t` cannot be a prefix of `b ++ r` for any `r`. -/
def mismatch : List Char → List Char → Bool
  | [], _ => false
  | _, [] => false
  | a :: t, c :: b => a != c || mismatch t b

/-- No nonempty proper prefix of `pat` is a suffix of `x`; then no occurrence
of `pat` can straddle the boundary of `x ++ y` for any `y`, provided `y`
never completes such a prefix — used as the boundary check on the left
segment. -/
def leftSafe (pat x : List Char) : Bool :=
  (List.range pat.length).all fun k =>
    k == 0 || decide (List.drop (x.length - k) x ≠ List.take k pat)

/-- Every nonempty proper suffix of `pat` mismatches `b` within `b`; then no
occurrence of `pat` can straddle into `b ++ r` from the left, for any left
part and any `r` — used as the boundary check on the right segment. -/
def rightSafe (pat b : List Char) : Bool :=
  (List.range pat.length).all fun k =>
    k == 0 || mismatch (List.drop k pat) b

/-- A newline followed by a level-three-or-deeper heading marker. -/
def nlDeepHeadingMark : List Char := ("\n###").toList

/-- Spec-side reading of the explanation capture for C7, following the spec's
words: capture from immediately after the fixed explanation heading up to the
next top-level heading of the same markup level — a newline followed by
exactly two `#` characters (so a level-three heading `###` does NOT stop the
capture) — or to the end of the text if no such heading follows; trimmed. -/
def specExplanationField (s : List Char) : Option (List Char) :=
  match findOcc explOpen s with
  | none => none
  | some i =>
    let t := List.drop (i + explOpen.length) s
    match (List.range (t.length + 1)).find?
        (fun j => nlHeadingMark.isPrefixOf (List.drop j t)
                  && !(nlDeepHeadingMark.isPrefixOf (List.drop j t))) with
    | none => some (pyStrip t)
    | some j => some (pyStrip (List.take j t))

/-- Python dict.get(key, default): the stored value when the key is present,
the default only when it is absent. -/
def dictGet : List (List Char × List Char) → List Char → List Char → List Char
  | [], _, dflt => dflt
  | kv :: rest, key, dflt => if kv.1 = key then kv.2 else dictGet rest key dflt

/-- The caller-facing response model (pydantic `DatabaseResponse`). -/
structure DatabaseResponse where
  erd_mermaid : List Char
  sql_queries : List Char
  explanation : List Char
deriving DecidableEq

/-- Detail string of the HTTPException raised on an empty completion. -/
def emptyDetail : List Char := ("Empty response from LLM").toList

/-- The dead default passed to sections.get for the diagram field. -/
def mermaidPlaceholder : List Char := ("Could not extract Mermaid diagram").toList

/-- The dead default passed to sections.get for the SQL field. -/
def sqlPlaceholder : List Char := ("Could not extract SQL queries").toList

/-- Embedding of the post-backend part of `design_database`
(src/backend/api.py lines 155-176), as a function of the raw completion
returned by `query_ollama`.  An empty completion raises an HTTPException
(modelled as `Except.error`; the outer `except Exception` handler re-raises
it wrapped in another HTTPException, which does not change the
error-versus-success outcome, so only the inner detail is kept).  Otherwise
the sections dict is built; when any stripped value is empty the degraded
branch rebuilds the response with `sections.get(key, default)` — the defaults
are dead because `extract_sections` always stores all three keys. -/
def design_database (response : List Char) : Except (List Char) DatabaseResponse :=
  if response.isEmpty then
    Except.error emptyDetail
  else
    let sections := extract_sections response
    let missing := (sections.filter fun kv => (pyStrip kv.2).isEmpty).map Prod.fst
    if missing.isEmpty then
      -- DatabaseResponse(**sections): each field is the dict value of its key
      Except.ok { erd_mermaid := dictGet sections erdKey []
                , sql_queries := dictGet sections sqlKey []
                , explanation := dictGet sections explKey [] }
    else
      Except.ok { erd_mermaid := dictGet sections erdKey mermaidPlaceholder
                , sql_queries := dictGet sections sqlKey sqlPlaceholder
                , explanation := dictGet sections explKey response }

/-- Fixed template text of `create_database_design_prompt` before
`{description}`. -/
def promptA : List Char := ("You are an expert database architect. Based on the following application description, design a complete database schema.\n\nApplication Description: ").toList

/-- Fixed template text between `{description}` and the first `{db_type}`. -/
def promptB : List Char := ("\nDatabase Type: ").toList

/-- Fixed template text between the first and the second `{db_type}`. -/
def promptC : List Char := ("\n\nPlease provide your response in exactly this format:\n\n## ERD (Mermaid)\n\x60\x60\x60mermaid\nerDiagram\n    [Your Entity Relationship Diagram here using Mermaid syntax]\n\x60\x60\x60\n\n## SQL Queries\n\x60\x60\x60sql\n-- Your CREATE TABLE statements here\n-- Include primary keys, foreign keys, indexes, and constraints\n-- Use MySQL-specific syntax and data types (INT AUTO_INCREMENT, VARCHAR, etc.)\n-- Include ENGINE=InnoDB and CHARACTER SET specifications\n\x60\x60\x60\n\n## Design Explanation\nProvide a detailed explanation of:\n1. Why you chose this schema design\n2. Relationships between tables and their reasoning\n3. Key design decisions (normalization level, indexing strategy, etc.)\n4. Scalability considerations\n5. Any assumptions made about the requirements\n\nFocus on best practices for ").toList

/-- Fixed template text after the second `{db_type}`. -/
def promptD : List Char := (" and ensure the design is normalized, efficient, and scalable.").toList

/-- Embedding of `create_database_design_prompt` (src/backend/api.py lines
66-97): the f-string template interpolates the description once and the
database type twice, verbatim. -/
def create_database_design_prompt (description db_type : List Char) : List Char :=
  promptA ++ description ++ promptB ++ db_type ++ promptC ++ db_type ++ promptD

/-- Outcome of the model-listing backend query (requests.get on the tags
endpoint followed by raise_for_status and JSON decoding): either the decoded
list of model names, or a RequestException (connection failure, non-success
status, timeout). -/
inductive TagsQueryOutcome where
  | ok (models : List (List Char))
  | failure
deriving DecidableEq

/-- The body returned by `get_available_models`: either the dict with the
"available_models" key, or the dict with the "error" key. -/
inductive ModelsReply where
  | availableModels (names : List (List Char))
  | errorMessage (msg : List Char)
deriving DecidableEq

/-- The "error" dict value returned when the tags query fails. -/
def connectError : List Char := ("Could not connect to Ollama. Make sure it\x27s running.").toList

/-- Embedding of `get_available_models` (src/backend/api.py lines 134-143):
a RequestException from the tags query is caught and converted into a normal
response carrying the "error" message; it is not re-raised (an
`Except.error` would model an uncaught exception aborting the handler). -/
def get_available_models : TagsQueryOutcome → Except (List Char) ModelsReply
  | TagsQueryOutcome.ok models => Except.ok (ModelsReply.availableModels models)
  | TagsQueryOutcome.failure => Except.ok (ModelsReply.errorMessage connectError)

/-- The spec's example completion for C1: only a diagram block and the
explanation heading, the SQL block missing. -/
def c1Completion : List Char :=
  ("\x60\x60\x60mermaid\nX\n\x60\x60\x60\n\n## Design Explanation\nZ").toList

/-- A completion with no recognizable structure at all: plain prose, no
fences, no heading. -/
def c2Completion : List Char := ("hello there").toList

/-- A synthetic completion exactly matching the prompt template's output
format, with diagram interior X, SQL interior Y and explanation Z. -/
def c4Completion : List Char :=
  ("## ERD (Mermaid)\n\x60\x60\x60mermaid\nX\n\x60\x60\x60\n\n## SQL Queries\n\x60\x60\x60sql\nY\n\x60\x60\x60\n\n## Design Explanation\nZ").toList

/-- A completion exercising the C7 discrepancy: the explanation text is
followed by a level-three heading, which the code's stop pattern treats as a
terminator although it is not a heading of the same markup level. -/
def c7Completion : List Char := ("## Design Explanation\nZ\n### More\nW").toList

/-- Witness description for C5: plain text free of the template markers. -/
def w5d : List Char := ("a web shop with customers and orders").toList

/-- Witness dialect for C5. -/
def w5t : List Char := ("MySQL").toList

/-- Witness completion for C6: four fence delimiters, no heading. -/
def w6 : List Char := ("a\x60\x60\x60b\x60\x60\x60c\x60\x60\x60d\x60\x60\x60e").toList

/-- Witness completion for C7: heading, text, then a same-level heading. -/
def w7 : List Char := ("## Design Explanation\nZ\n## End").toList

/-- Witness completion for C8: one diagram block, no SQL block. -/
def w8 : List Char := ("x\x60\x60\x60mermaid\nA\n\x60\x60\x60 no sql block").toList

set_option maxRecDepth 40000

/-- Occurrence at position zero is just being a prefix. -/
theorem occursAt_zero_iff (pat s : List Char) :
    occursAt pat s 0 ↔ pat.isPrefixOf s = true := by
  simp [occursAt]

/-- Occurrence in a cons cell at a successor position. -/
theorem occursAt_succ_cons (pat : List Char) (c : Char) (rest : List Char) (i : Nat) :
    occursAt pat (c :: rest) (i + 1) ↔ occursAt pat rest i := by
  simp [occursAt, List.drop_succ_cons]

/-- Occurrence inside a dropped tail is occurrence at the shifted position. -/
theorem occursAt_drop (pat s : List Char) (n k : Nat) :
    occursAt pat (List.drop n s) k ↔ occursAt pat s (n + k) := by
  simp [occursAt, List.drop_drop]

/-- An occurrence of a pattern is an occurrence of each of its prefixes. -/
theorem occursAt_mono (pat' pat s : List Char) (i : Nat)
    (hp : pat' <+: pat) (h : occursAt pat s i) : occursAt pat' s i := by
  unfold occursAt at h ⊢
  rw [List.isPrefixOf_iff_prefix] at h ⊢
  exact hp.trans h

/-- `findOcc` returns an actual occurrence, and the leftmost one. -/
theorem findOcc_some (pat : List Char) :
    ∀ (s : List Char) (i : Nat), findOcc pat s = some i →
      occursAt pat s i ∧ ∀ k, k < i → ¬ occursAt pat s k := by
  intro s
  induction s with
  | nil =>
    intro i h
    cases pat with
    | nil =>
      simp only [findOcc, List.isEmpty_nil, if_true, Option.some.injEq] at h
      subst h
      exact ⟨rfl, fun k hk => absurd hk (by omega)⟩
    | cons p pt =>
      simp [findOcc] at h
  | cons c rest ih =>
    intro i h
    simp only [findOcc] at h
    split at h
    · next hcond =>
      obtain rfl : (0 : Nat) = i := Option.some.inj h
      refine ⟨(occursAt_zero_iff pat (c :: rest)).mpr hcond, fun k hk => absurd hk (by omega)⟩
    · next hcond =>
      cases hfr : findOcc pat rest with
      | none => rw [hfr] at h; simp at h
      | some j =>
        rw [hfr] at h
        simp at h
        obtain ⟨hocc, hmin⟩ := ih j hfr
        subst h
        constructor
        · exact (occursAt_succ_cons pat c rest j).mpr hocc
        · intro k hk
          cases k with
          | zero =>
            intro hk0
            exact hcond ((occursAt_zero_iff pat (c :: rest)).mp hk0)
          | succ k' =>
            intro hk'
            exact hmin k' (by omega) ((occursAt_succ_cons pat c rest k').mp hk')

/-- When `findOcc` fails there is no occurrence at all. -/
theorem findOcc_none (pat : List Char) :
    ∀ (s : List Char), findOcc pat s = none → ∀ i, ¬ occursAt pat s i := by
  intro s
  induction s with
  | nil =>
    intro h i
    cases pat with
    | nil => simp [findOcc] at h
    | cons p pt => simp [occursAt, List.isPrefixOf]
  | cons c rest ih =>
    intro h i
    simp only [findOcc] at h
    split at h
    · exact absurd h (by simp)
    · next hcond =>
      cases hfr : findOcc pat rest with
      | some j => rw [hfr] at h; simp at h
      | none =>
        cases i with
        | zero =>
          intro hk0
          exact hcond ((occursAt_zero_iff pat (c :: rest)).mp hk0)
        | succ k =>
          intro hk
          exact ih hfr k ((occursAt_succ_cons pat c rest k).mp hk)

/-- Any occurrence bounds the position `findOcc` returns. -/
theorem findOcc_le_of_occursAt (pat : List Char) :
    ∀ (s : List Char) (i : Nat), occursAt pat s i →
      ∃ j, j ≤ i ∧ findOcc pat s = some j := by
  intro s
  induction s with
  | nil =>
    intro i hi
    cases pat with
    | nil => exact ⟨0, by omega, by simp [findOcc]⟩
    | cons p pt => simp [occursAt, List.isPrefixOf] at hi
  | cons c rest ih =>
    intro i hi
    by_cases hp : pat.isPrefixOf (c :: rest) = true
    · exact ⟨0, by omega, by simp [findOcc, hp]⟩
    · cases i with
      | zero => exact absurd ((occursAt_zero_iff pat (c :: rest)).mp hi) hp
      | succ k =>
        obtain ⟨j, hj, hfind⟩ := ih k ((occursAt_succ_cons pat c rest k).mp hi)
        exact ⟨j + 1, by omega, by simp [findOcc, hp, hfind]⟩

/-- A leftmost occurrence is what `findOcc` returns. -/
theorem findOcc_eq_some_of_first (pat s : List Char) (i : Nat)
    (h1 : occursAt pat s i) (h2 : ∀ k, k < i → ¬ occursAt pat s k) :
    findOcc pat s = some i := by
  obtain ⟨j, hj, hfind⟩ := findOcc_le_of_occursAt pat s i h1
  obtain ⟨hoccj, -⟩ := findOcc_some pat s j hfind
  rcases Nat.lt_or_ge j i with hlt | hge
  · exact absurd hoccj (h2 j hlt)
  · have : j = i := by omega
    rw [← this]
    exact hfind

/-- The erd field of the sections dict. -/
theorem dictGet_erd (s : List Char) :
    dictGet (extract_sections s) erdKey [] = fieldValue (extractFenced mermaidOpen s) := rfl

/-- The sql field of the sections dict. -/
theorem dictGet_sql (s : List Char) :
    dictGet (extract_sections s) sqlKey [] = fieldValue (extractFenced sqlOpen s) := rfl

/-- The explanation field of the sections dict. -/
theorem dictGet_expl (s : List Char) :
    dictGet (extract_sections s) explKey [] = explanationValue s := rfl

/-- `extractFenced` on the first fenced block: the capture is the text between
the end of the opening tag and the earliest closing fence. -/
theorem extractFenced_of_firstBlock (openTag s : List Char) (i j : Nat)
    (h : firstFencedBlock openTag s i j) :
    extractFenced openTag s
      = some (List.take (j - (i + openTag.length)) (List.drop (i + openTag.length) s)) := by
  obtain ⟨⟨hopen, hle, hclose⟩, hfirst, hmin⟩ := h
  have h1 : findOcc openTag s = some i := findOcc_eq_some_of_first _ _ _ hopen hfirst
  have h2 : findOcc fenceDelim (List.drop (i + openTag.length) s)
      = some (j - (i + openTag.length)) := by
    apply findOcc_eq_some_of_first
    · rw [occursAt_drop]
      have he : i + openTag.length + (j - (i + openTag.length)) = j := by omega
      rw [he]
      exact hclose
    · intro k hk
      rw [occursAt_drop]
      exact hmin (i + openTag.length + k) (by omega) (by omega)
  simp only [extractFenced, h1, h2]

/-- `extractFenced` once the opening tag has been located. -/
theorem extractFenced_eq_of_found (openTag s : List Char) (i : Nat)
    (h : findOcc openTag s = some i) :
    extractFenced openTag s
      = match findOcc fenceDelim (List.drop (i + openTag.length) s) with
        | none => none
        | some j => some (List.take j (List.drop (i + openTag.length) s)) := by
  unfold extractFenced
  rw [h]

/-- `extractFenced` fails when no tagged fenced block exists. -/
theorem extractFenced_none_of_noBlock (openTag s : List Char)
    (h : ∀ i j, ¬ fencedBlockAt openTag s i j) :
    extractFenced openTag s = none := by
  cases h1 : findOcc openTag s with
  | none => unfold extractFenced; rw [h1]
  | some i =>
    rw [extractFenced_eq_of_found openTag s i h1]
    obtain ⟨hocc, -⟩ := findOcc_some _ _ _ h1
    cases h2 : findOcc fenceDelim (List.drop (i + openTag.length) s) with
    | none => rfl
    | some j =>
      obtain ⟨hocc2, -⟩ := findOcc_some _ _ _ h2
      rw [occursAt_drop] at hocc2
      exact absurd ⟨hocc, by omega, hocc2⟩ (h i (i + openTag.length + j))

/-- With no occurrence of the opening tag there is no fenced block. -/
theorem noBlock_of_findOcc_none (openTag s : List Char)
    (h : findOcc openTag s = none) : ∀ i j, ¬ fencedBlockAt openTag s i j := by
  rintro i j ⟨hocc, -, -⟩
  exact findOcc_none _ _ h i hocc

/-- `extractExplanation` once the heading has been located. -/
theorem extractExplanation_eq_of_found (s : List Char) (i : Nat)
    (h : findOcc explOpen s = some i) :
    extractExplanation s
      = match findOcc nlHeadingMark (List.drop (i + explOpen.length) s) with
        | none => some (List.drop (i + explOpen.length) s)
        | some j => some (List.take j (List.drop (i + explOpen.length) s)) := by
  unfold extractExplanation
  rw [h]

/-- C1: on a completion whose SQL fenced block is not found, the code does
NOT put the fixed placeholder into the SQL field: because `extract_sections`
always stores all three keys, `sections.get("sql_queries", placeholder)`
returns the stored empty string and the placeholder default is dead.  On the
spec's own example (diagram block and explanation heading only) the returned
response carries an empty SQL field, while the placeholder is a nonempty
string, so the claimed behavior fails on the code. -/
theorem c1_sql_field_empty_not_placeholder :
    design_database c1Completion
      = Except.ok { erd_mermaid := ("X").toList
                  , sql_queries := []
                  , explanation := ("Z").toList }
    ∧ sqlPlaceholder ≠ [] ∧ mermaidPlaceholder ≠ [] :=
  ⟨by rfl, by decide, by decide⟩

/-- C2: on a nonempty completion with no recognizable structure, the code
does NOT fall back to the raw completion text for the explanation field:
`sections.get("explanation", response)` returns the stored empty string
because the key is always present, so the returned explanation field is
empty rather than the raw completion. -/
theorem c2_explanation_not_raw_fallback :
    design_database c2Completion
      = Except.ok { erd_mermaid := [], sql_queries := [], explanation := [] }
    ∧ c2Completion ≠ [] :=
  ⟨by rfl, by decide⟩

/-- C3: an empty (zero-length) completion makes the design operation signal
a request-level error (the HTTPException raised at api.py line 158, re-raised
wrapped by the handler at line 176) rather than returning a degraded
successful DesignResult. -/
theorem c3_empty_completion_is_error (r : List Char) (h : r.isEmpty = true) :
    design_database r = Except.error emptyDetail := by
  simp [design_database, h]

/-- Witness for C3 at the concrete empty completion. -/
theorem c3_empty_completion_is_error_witness :
    (List.isEmpty ([] : List Char) = true)
    ∧ design_database [] = Except.error emptyDetail :=
  ⟨rfl, c3_empty_completion_is_error [] rfl⟩

/-- C4: on a synthetic completion exactly matching the template, with
diagram interior X, SQL interior Y and explanation Z, extraction returns
exactly those three values (and the design operation returns them as a
successful non-degraded response). -/
theorem c4_round_trip :
    extract_sections c4Completion
      = [(erdKey, ("X").toList), (sqlKey, ("Y").toList), (explKey, ("Z").toList)]
    ∧ design_database c4Completion
      = Except.ok { erd_mermaid := ("X").toList
                  , sql_queries := ("Y").toList
                  , explanation := ("Z").toList } :=
  ⟨by decide, by rfl⟩

/-- C9: when the model-listing backend query fails, `get_available_models`
returns a normal response carrying the fixed "unavailable" error message —
it does not propagate an error that aborts the caller; in fact every
modelled backend outcome yields a normal response. -/
theorem c9_list_models_failure_not_error :
    get_available_models TagsQueryOutcome.failure
      = Except.ok (ModelsReply.errorMessage connectError)
    ∧ ∀ b, ∃ reply, get_available_models b = Except.ok reply := by
  refine ⟨rfl, ?_⟩
  intro b
  cases b <;> exact ⟨_, rfl⟩

/-- C10: the section extractor is total (it is a plain function in this
embedding, defined for every input string including the empty string and
strings with unmatched or nested fence delimiters) and its result always
binds exactly the three keys erd_mermaid, sql_queries and explanation, in
that order, each to a string. -/
theorem c10_extract_sections_total_three_keys (s : List Char) :
    (extract_sections s).map Prod.fst = [erdKey, sqlKey, explKey]
    ∧ (extract_sections s).length = 3 := by
  constructor <;> rfl

/-- C6: when the heading string is absent, the explanation field at
extraction time is the stripped trailing segment of the fence-delimiter split
when that split has at least five parts, and empty otherwise. -/
theorem c6_positional_fallback (s : List Char)
    (h : findOcc explHeading s = none) :
    (5 ≤ (pySplit fenceDelim s).length →
       dictGet (extract_sections s) explKey []
         = pyStrip ((pySplit fenceDelim s).getLastD []))
    ∧ ((pySplit fenceDelim s).length < 5 →
       dictGet (extract_sections s) explKey [] = []) := by
  have hpfx : explHeading <+: explOpen := List.isPrefixOf_iff_prefix.mp (by decide)
  have hOpen : findOcc explOpen s = none := by
    cases hfo : findOcc explOpen s with
    | none => rfl
    | some i =>
      obtain ⟨hocc, -⟩ := findOcc_some explOpen s i hfo
      obtain ⟨j, -, hj⟩ := findOcc_le_of_occursAt explHeading s i
        (occursAt_mono explHeading explOpen s i hpfx hocc)
      rw [h] at hj
      cases hj
  have hNone : extractExplanation s = none := by
    unfold extractExplanation
    rw [hOpen]
  have hval : explanationValue s
      = if 5 ≤ (pySplit fenceDelim s).length
        then pyStrip ((pySplit fenceDelim s).getLastD []) else [] := by
    unfold explanationValue
    rw [hNone]
  rw [dictGet_expl, hval]
  constructor
  · intro h5
    rw [if_pos h5]
  · intro h5
    rw [if_neg (by omega)]

/-- Witness for C6 at a concrete heading-free completion with four fence
delimiters. -/
theorem c6_positional_fallback_witness :
    findOcc explHeading w6 = none
    ∧ ((5 ≤ (pySplit fenceDelim w6).length →
          dictGet (extract_sections w6) explKey []
            = pyStrip ((pySplit fenceDelim w6).getLastD []))
       ∧ ((pySplit fenceDelim w6).length < 5 →
          dictGet (extract_sections w6) explKey [] = [])) :=
  ⟨by decide, c6_positional_fallback w6 (by decide)⟩

/-- C7 counterexample: the code's capture stops at ANY newline-plus-`##`,
including the deeper heading `###`, while the claim stops only at the next
top-level heading of the same markup level; on a completion whose explanation
is followed by a `###` heading the two differ. -/
theorem c7_counterexample :
    specExplanationField c7Completion = some (("Z\n### More\nW").toList)
    ∧ dictGet (extract_sections c7Completion) explKey [] = ("Z").toList
    ∧ ¬ (some (dictGet (extract_sections c7Completion) explKey [])
          = specExplanationField c7Completion) :=
  ⟨by decide, by decide, by decide⟩

/-- C7 amended: for every completion containing the heading-line pattern, the
extracted explanation equals the trimmed text from immediately after the
pattern up to the earliest following newline-plus-`##` (which includes deeper
headings), or to the end of the text when there is none. -/
theorem c7_heading_capture (s : List Char) (i : Nat)
    (h1 : occursAt explOpen s i) (h2 : ∀ k, k < i → ¬ occursAt explOpen s k) :
    (∀ j, occursAt nlHeadingMark (List.drop (i + explOpen.length) s) j →
       (∀ k, k < j → ¬ occursAt nlHeadingMark (List.drop (i + explOpen.length) s) k) →
       dictGet (extract_sections s) explKey []
         = pyStrip (List.take j (List.drop (i + explOpen.length) s)))
    ∧ ((∀ j, ¬ occursAt nlHeadingMark (List.drop (i + explOpen.length) s) j) →
       dictGet (extract_sections s) explKey []
         = pyStrip (List.drop (i + explOpen.length) s)) := by
  have hfo : findOcc explOpen s = some i := findOcc_eq_some_of_first _ _ _ h1 h2
  constructor
  · intro j hj hjmin
    have hfj : findOcc nlHeadingMark (List.drop (i + explOpen.length) s) = some j :=
      findOcc_eq_some_of_first _ _ _ hj hjmin
    have hv : extractExplanation s
        = some (List.take j (List.drop (i + explOpen.length) s)) := by
      rw [extractExplanation_eq_of_found s i hfo, hfj]
    rw [dictGet_expl]
    unfold explanationValue
    rw [hv]
  · intro hnone
    have hfj : findOcc nlHeadingMark (List.drop (i + explOpen.length) s) = none := by
      cases hfo2 : findOcc nlHeadingMark (List.drop (i + explOpen.length) s) with
      | none => rfl
      | some j => exact absurd (findOcc_some _ _ _ hfo2).1 (hnone j)
    have hv : extractExplanation s = some (List.drop (i + explOpen.length) s) := by
      rw [extractExplanation_eq_of_found s i hfo, hfj]
    rw [dictGet_expl]
    unfold explanationValue
    rw [hv]

/-- Witness for the amended C7 at a concrete completion whose heading is at
position zero. -/
theorem c7_heading_capture_witness :
    occursAt explOpen w7 0
    ∧ (∀ k, k < 0 → ¬ occursAt explOpen w7 k)
    ∧ ((∀ j, occursAt nlHeadingMark (List.drop (0 + explOpen.length) w7) j →
          (∀ k, k < j → ¬ occursAt nlHeadingMark (List.drop (0 + explOpen.length) w7) k) →
          dictGet (extract_sections w7) explKey []
            = pyStrip (List.take j (List.drop (0 + explOpen.length) w7)))
       ∧ ((∀ j, ¬ occursAt nlHeadingMark (List.drop (0 + explOpen.length) w7) j) →
          dictGet (extract_sections w7) explKey []
            = pyStrip (List.drop (0 + explOpen.length) w7))) :=
  ⟨by decide, by decide, c7_heading_capture w7 0 (by decide) (by decide)⟩

/-- C8: the diagram field is the stripped interior of the first
mermaid-tagged fenced block when one exists and empty otherwise, and likewise
the SQL field for the first sql-tagged fenced block. -/
theorem c8_first_block_fields (s : List Char) :
    (∀ i j, firstFencedBlock mermaidOpen s i j →
       dictGet (extract_sections s) erdKey []
         = pyStrip (List.take (j - (i + mermaidOpen.length))
             (List.drop (i + mermaidOpen.length) s)))
    ∧ ((∀ i j, ¬ fencedBlockAt mermaidOpen s i j) →
       dictGet (extract_sections s) erdKey [] = [])
    ∧ (∀ i j, firstFencedBlock sqlOpen s i j →
       dictGet (extract_sections s) sqlKey []
         = pyStrip (List.take (j - (i + sqlOpen.length))
             (List.drop (i + sqlOpen.length) s)))
    ∧ ((∀ i j, ¬ fencedBlockAt sqlOpen s i j) →
       dictGet (extract_sections s) sqlKey [] = []) := by
  refine ⟨fun i j h => ?_, fun h => ?_, fun i j h => ?_, fun h => ?_⟩
  · rw [dictGet_erd, extractFenced_of_firstBlock mermaidOpen s i j h]; rfl
  · rw [dictGet_erd, extractFenced_none_of_noBlock mermaidOpen s h]; rfl
  · rw [dictGet_sql, extractFenced_of_firstBlock sqlOpen s i j h]; rfl
  · rw [dictGet_sql, extractFenced_none_of_noBlock sqlOpen s h]; rfl

/-- A nonempty pattern never occurs in the empty list. -/
theorem countOcc_nil (pat : List Char) (hp : pat ≠ []) : countOcc pat [] = 0 := by
  have h : pat.isEmpty = false := by
    cases pat with
    | nil => exact absurd rfl hp
    | cons a l => rfl
  simp [countOcc, h]

/-- A prefix of an appended list that fits inside the left part is a prefix
of the left part. -/
theorem prefix_append_iff_of_le (pat s t : List Char) (h : pat.length ≤ s.length) :
    pat <+: s ++ t ↔ pat <+: s := by
  constructor
  · intro hp
    rw [List.prefix_iff_eq_take] at hp
    rw [List.take_append_of_le_length h] at hp
    rw [hp]
    exact List.take_prefix pat.length s
  · intro hp
    exact hp.trans (List.prefix_append s t)

/-- If `pat` is a prefix of `s ++ t` and is longer than `s`, then dropping
the length of `s` from `pat` leaves a prefix of `t`. -/
theorem drop_prefix_of_prefix_append (pat s t : List Char) (h : pat <+: s ++ t) :
    List.drop s.length pat <+: t := by
  have he : pat = List.take pat.length (s ++ t) := List.prefix_iff_eq_take.mp h
  have : List.drop s.length pat = List.take (pat.length - s.length) t := by
    calc List.drop s.length pat
        = List.drop s.length (List.take pat.length (s ++ t)) := by rw [← he]
      _ = List.take (pat.length - s.length) (List.drop s.length (s ++ t)) := by
          rw [List.drop_take]
      _ = List.take (pat.length - s.length) t := by rw [List.drop_left]
  rw [this]
  exact List.take_prefix _ t

/-- Splitting the occurrence count over an append when no occurrence
straddles the boundary. -/
theorem countOcc_append_split (pat : List Char) (hp : pat ≠ []) :
    ∀ (x y : List Char),
      (∀ i, i < x.length → occursAt pat (x ++ y) i → i + pat.length ≤ x.length) →
      countOcc pat (x ++ y) = countOcc pat x + countOcc pat y := by
  intro x
  induction x with
  | nil =>
    intro y h
    rw [List.nil_append, countOcc_nil pat hp]
    omega
  | cons c rest ih =>
    intro y h
    have hshift : ∀ i, i < rest.length → occursAt pat (rest ++ y) i →
        i + pat.length ≤ rest.length := by
      intro i hi hocc
      have hstep := h (i + 1) (by simpa using Nat.succ_lt_succ hi)
        (by
          rw [List.cons_append]
          exact (occursAt_succ_cons pat c (rest ++ y) i).mpr hocc)
      simp only [List.length_cons] at hstep
      omega
    have hiff : pat.isPrefixOf ((c :: rest) ++ y) = pat.isPrefixOf (c :: rest) := by
      by_cases hb : pat.isPrefixOf (c :: rest) = true
      · rw [hb]
        rw [List.isPrefixOf_iff_prefix]
        exact (List.isPrefixOf_iff_prefix.mp hb).trans (List.prefix_append _ _)
      · have hb2 : ¬ pat.isPrefixOf ((c :: rest) ++ y) = true := by
          intro hT
          have hlen : pat.length ≤ (c :: rest).length := by
            have := h 0 (by simp) (by
              unfold occursAt
              rw [List.drop_zero]
              exact hT)
            omega
          exact hb (List.isPrefixOf_iff_prefix.mpr
            ((prefix_append_iff_of_le pat (c :: rest) y hlen).mp
              (List.isPrefixOf_iff_prefix.mp hT)))
        rw [Bool.not_eq_true] at hb hb2
        rw [hb, hb2]
    rw [List.cons_append]
    simp only [countOcc]
    rw [← List.cons_append, hiff, ih y hshift]
    omega

/-- A list that mismatches `b` within `b` is a prefix of no extension of
`b`. -/
theorem not_prefix_of_mismatch :
    ∀ (t b : List Char), mismatch t b = true → ∀ r, ¬ t <+: b ++ r := by
  intro t
  induction t with
  | nil =>
    intro b h r
    simp [mismatch] at h
  | cons a t' ih =>
    intro b h r
    cases b with
    | nil => simp [mismatch] at h
    | cons c b' =>
      simp only [mismatch, Bool.or_eq_true] at h
      intro hpfx
      rw [List.cons_append, List.cons_prefix_cons] at hpfx
      rcases h with hne | hmis
      · exact (bne_iff_ne.mp hne) hpfx.1
      · exact ih b' hmis r hpfx.2

/-- Splitting the count over an append whose left part ends in no nonempty
proper prefix of the pattern. -/
theorem countOcc_append_of_leftSafe (pat x y : List Char) (hp : pat ≠ [])
    (h : leftSafe pat x = true) :
    countOcc pat (x ++ y) = countOcc pat x + countOcc pat y := by
  apply countOcc_append_split pat hp
  intro i hi hocc
  by_contra hlt
  push_neg at hlt
  have hk1 : 0 < x.length - i := by omega
  have hk2 : x.length - i < pat.length := by omega
  have hdrop : List.drop i (x ++ y) = List.drop i x ++ y :=
    List.drop_append_of_le_length (by omega)
  have hpfx : pat <+: List.drop i x ++ y := by
    unfold occursAt at hocc
    rw [hdrop] at hocc
    exact List.isPrefixOf_iff_prefix.mp hocc
  have hlen : (List.drop i x).length = x.length - i := List.length_drop i x
  have hsub : List.drop i x <+: pat := by
    apply List.prefix_of_prefix_length_le (List.prefix_append _ _) hpfx
    rw [hlen]
    omega
  have hstr : List.drop i x = List.take (x.length - i) pat := by
    have h1 := List.prefix_iff_eq_take.mp hsub
    rw [hlen] at h1
    exact h1
  have hall := (List.all_eq_true.mp h) (x.length - i) (List.mem_range.mpr hk2)
  simp only [Bool.or_eq_true, beq_iff_eq, decide_eq_true_eq] at hall
  rcases hall with h0 | hne
  · omega
  · have : x.length - (x.length - i) = i := by omega
    rw [this] at hne
    exact hne hstr

/-- Splitting the count over an append whose right part opens with a fixed
segment that mismatches every nonempty proper suffix of the pattern. -/
theorem countOcc_append_of_rightSafe (pat x b r : List Char) (hp : pat ≠ [])
    (h : rightSafe pat b = true) :
    countOcc pat (x ++ (b ++ r)) = countOcc pat x + countOcc pat (b ++ r) := by
  apply countOcc_append_split pat hp
  intro i hi hocc
  by_contra hlt
  push_neg at hlt
  have hk1 : 0 < x.length - i := by omega
  have hk2 : x.length - i < pat.length := by omega
  have hdrop : List.drop i (x ++ (b ++ r)) = List.drop i x ++ (b ++ r) :=
    List.drop_append_of_le_length (by omega)
  have hpfx : pat <+: List.drop i x ++ (b ++ r) := by
    unfold occursAt at hocc
    rw [hdrop] at hocc
    exact List.isPrefixOf_iff_prefix.mp hocc
  have hlen : (List.drop i x).length = x.length - i := List.length_drop i x
  have htail : List.drop (x.length - i) pat <+: b ++ r := by
    have := drop_prefix_of_prefix_append pat (List.drop i x) (b ++ r) hpfx
    rw [hlen] at this
    exact this
  have hall := (List.all_eq_true.mp h) (x.length - i) (List.mem_range.mpr hk2)
  simp only [Bool.or_eq_true, beq_iff_eq] at hall
  rcases hall with h0 | hmis
  · omega
  · exact not_prefix_of_mismatch _ b hmis r htail

/-- Substring occurrence from an explicit decomposition. -/
theorem occursIn_of_parts (pat s u w : List Char) (h : s = u ++ (pat ++ w)) :
    occursIn pat s := by
  subst h
  refine ⟨u.length, ?_⟩
  unfold occursAt
  rw [List.drop_left]
  exact List.isPrefixOf_iff_prefix.mpr (List.prefix_append pat w)

/-- The occurrence count of a pattern in a built prompt decomposes over the
seven segments when the pattern cannot straddle any of the six boundaries. -/
theorem countOcc_prompt (pat : List Char) (hp : pat ≠ [])
    (hA : leftSafe pat promptA = true)
    (hBr : rightSafe pat promptB = true)
    (hBl : leftSafe pat promptB = true)
    (hCr : rightSafe pat promptC = true)
    (hCl : leftSafe pat promptC = true)
    (hDr : rightSafe pat promptD = true)
    (d t : List Char) :
    countOcc pat (create_database_design_prompt d t)
      = countOcc pat promptA + countOcc pat d + countOcc pat promptB
        + countOcc pat t + countOcc pat promptC + countOcc pat t
        + countOcc pat promptD := by
  have hD : countOcc pat (t ++ promptD) = countOcc pat t + countOcc pat promptD := by
    have h0 := countOcc_append_of_rightSafe pat t promptD [] hp hDr
    rw [List.append_nil] at h0
    exact h0
  unfold create_database_design_prompt
  rw [List.append_assoc, List.append_assoc, List.append_assoc, List.append_assoc,
      List.append_assoc]
  rw [countOcc_append_of_leftSafe pat promptA _ hp hA]
  rw [countOcc_append_of_rightSafe pat d promptB _ hp hBr]
  rw [countOcc_append_of_leftSafe pat promptB _ hp hBl]
  rw [countOcc_append_of_rightSafe pat t promptC _ hp hCr]
  rw [countOcc_append_of_leftSafe pat promptC _ hp hCl]
  rw [hD]
  omega

/-- Witness for C8 at a concrete completion with one mermaid block (positions
1 and 14) and no sql block. -/
theorem c8_first_block_fields_witness :
    firstFencedBlock mermaidOpen w8 1 14
    ∧ findOcc sqlOpen w8 = none
    ∧ dictGet (extract_sections w8) erdKey []
        = pyStrip (List.take (14 - (1 + mermaidOpen.length))
            (List.drop (1 + mermaidOpen.length) w8))
    ∧ dictGet (extract_sections w8) sqlKey [] = [] := by
  refine ⟨by decide, by decide, ?_, ?_⟩
  · exact (c8_first_block_fields w8).1 1 14 (by decide)
  · exact (c8_first_block_fields w8).2.2.2 (noBlock_of_findOcc_none sqlOpen w8 (by decide))

/-- C5 counterexample: the exactly-once part of the claim fails for a
description that itself contains the diagram language tag — the built prompt
then contains the tag twice, although both inputs are non-empty. -/
theorem c5_counterexample :
    mermaidTag ≠ []
    ∧ ("MySQL").toList ≠ []
    ∧ countOcc mermaidTag (create_database_design_prompt mermaidTag (("MySQL").toList)) = 2
    ∧ ¬ countOcc mermaidTag (create_database_design_prompt mermaidTag (("MySQL").toList)) = 1 :=
  ⟨by decide, by decide, by decide, by decide⟩

/-- C5 amended: for all non-empty (description, dialect) pairs, the prompt
contains the description and the dialect verbatim as substrings,
unconditionally; and when neither input itself contains the diagram tag, the
SQL tag or the explanation heading, the prompt contains each of the three
markers exactly once. -/
theorem c5_prompt_markers (d t : List Char) (hd : d ≠ []) (ht : t ≠ []) :
    occursIn d (create_database_design_prompt d t)
    ∧ occursIn t (create_database_design_prompt d t)
    ∧ (countOcc mermaidTag d = 0 → countOcc sqlTag d = 0 →
       countOcc explHeading d = 0 →
       countOcc mermaidTag t = 0 → countOcc sqlTag t = 0 →
       countOcc explHeading t = 0 →
       countOcc mermaidTag (create_database_design_prompt d t) = 1
       ∧ countOcc sqlTag (create_database_design_prompt d t) = 1
       ∧ countOcc explHeading (create_database_design_prompt d t) = 1) := by
  refine ⟨?_, ?_, ?_⟩
  · exact occursIn_of_parts d _ promptA
      (promptB ++ (t ++ (promptC ++ (t ++ promptD))))
      (by simp [create_database_design_prompt, List.append_assoc])
  · exact occursIn_of_parts t _ (promptA ++ (d ++ promptB))
      (promptC ++ (t ++ promptD))
      (by simp [create_database_design_prompt, List.append_assoc])
  · intro h1 h2 h3 h4 h5 h6
    refine ⟨?_, ?_, ?_⟩
    · rw [countOcc_prompt mermaidTag (by decide) (by decide) (by decide) (by decide)
          (by decide) (by decide) (by decide) d t, h1, h4]
      have cA : countOcc mermaidTag promptA = 0 := by decide
      have cB : countOcc mermaidTag promptB = 0 := by decide
      have cC : countOcc mermaidTag promptC = 1 := by decide
      have cD : countOcc mermaidTag promptD = 0 := by decide
      omega
    · rw [countOcc_prompt sqlTag (by decide) (by decide) (by decide) (by decide)
          (by decide) (by decide) (by decide) d t, h2, h5]
      have cA : countOcc sqlTag promptA = 0 := by decide
      have cB : countOcc sqlTag promptB = 0 := by decide
      have cC : countOcc sqlTag promptC = 1 := by decide
      have cD : countOcc sqlTag promptD = 0 := by decide
      omega
    · rw [countOcc_prompt explHeading (by decide) (by decide) (by decide) (by decide)
          (by decide) (by decide) (by decide) d t, h3, h6]
      have cA : countOcc explHeading promptA = 0 := by decide
      have cB : countOcc explHeading promptB = 0 := by decide
      have cC : countOcc explHeading promptC = 1 := by decide
      have cD : countOcc explHeading promptD = 0 := by decide
      omega

/-- Witness for the amended C5 at concrete marker-free inputs, with the
exactly-once guard discharged as well. -/
theorem c5_prompt_markers_witness :
    (w5d ≠ [] ∧ w5t ≠ [])
    ∧ occursIn w5d (create_database_design_prompt w5d w5t)
    ∧ occursIn w5t (create_database_design_prompt w5d w5t)
    ∧ countOcc mermaidTag (create_database_design_prompt w5d w5t) = 1
    ∧ countOcc sqlTag (create_database_design_prompt w5d w5t) = 1
    ∧ countOcc explHeading (create_database_design_prompt w5d w5t) = 1 := by
  obtain ⟨o1, o2, himp⟩ := c5_prompt_markers w5d w5t (by decide) (by decide)
  obtain ⟨e1, e2, e3⟩ := himp (by decide) (by decide) (by decide) (by decide)
    (by decide) (by decide)
  exact ⟨⟨by decide, by decide⟩, o1, o2, e1, e2, e3⟩

end DataAngelo
